import Mathlib

/-!
# ChannelMonitor: channel selection, model probing and reconciliation

A shallow embedding of `main.go` of the ChannelMonitor repository.

Modelling conventions.

* Go `string` is `String`.  The only string operations the program performs are
  concatenation, equality, `strings.Contains` / `strings.HasSuffix` with ASCII
  patterns, `strings.Join` and `strings.Split` on `","`; on these the byte view
  and the code-point view of a UTF-8 string agree.
* Go `int`, `int64` are `Int`, `uint64` is `Nat`: the program only copies and
  compares these values, it does no arithmetic on them.
* A Go `error` result is `Option String` (`none` is `nil`); a `(value, error)`
  pair where the value is `nil` on error is `Except String _`.
* The relational store is a value of type `Store`; every `db.Exec` / `db.Raw`
  call takes the outcome chosen by the store (success, or an error message) as
  an explicit argument.  A statement that fails leaves the store unchanged.
* HTTP calls take their outcome as an explicit argument and are recorded in a
  trace of the requests actually sent.
-/

namespace ChannelMonitor

/-! ## Go standard library helpers used by `main.go` -/

namespace strings

/-- Go `strings.HasSuffix(s, suffix)`. -/
def HasSuffix (s suffix : String) : Bool :=
  suffix.data.isSuffixOf s.data

/-- Substring search over characters: does `substr` occur in `s` at some offset. -/
def containsChars : List Char → List Char → Bool
  | [], substr => substr.isEmpty
  | c :: cs, substr => substr.isPrefixOf (c :: cs) || containsChars cs substr

/-- Go `strings.Contains(s, substr)`. -/
def Contains (s substr : String) : Bool :=
  containsChars s.data substr.data

/-- Go `strings.Join(elems, sep)`. -/
def Join : List String → String → String
  | [], _ => ""
  | [a], _ => a
  | a :: b :: rest, sep => a ++ sep ++ Join (b :: rest) sep

/-- Splitting a character sequence at every occurrence of `sep`. -/
def splitChars (sep : Char) : List Char → List (List Char)
  | [] => [[]]
  | c :: cs =>
    if c = sep then [] :: splitChars sep cs
    else
      match splitChars sep cs with
      | [] => [[c]]
      | w :: ws => (c :: w) :: ws

/-- Go `strings.Split(s, sep)` for a one-character separator (`main.go` only
splits on `","`). -/
def Split (s : String) (sep : Char) : List String :=
  (splitChars sep s.data).map String.mk

end strings

/-! ## Data model (`main.go` 15-38, `config.go` 9-17) -/

/-- Go `type Channel struct`; `Type_` is the field `Type`, `DeletedAt` is a
nullable timestamp. -/
structure Channel where
  ID : Int
  Type_ : Int
  Name : String
  BaseURL : String
  Key : String
  Status : Int
  Models : String
  DeletedAt : Option Int
  deriving DecidableEq, Repr

/-- Go `type Ability struct`. -/
structure Ability where
  Group : String
  Model : String
  ChannelID : Int
  Enabled : Bool
  Priority : Int
  Weight : Nat
  deriving DecidableEq, Repr

/-- Go `type ChannelConfig struct`. -/
structure ChannelConfig where
  Priority : Int
  Weight : Nat
  deriving DecidableEq, Repr

/-- Go `type Config struct` (`config.go`). -/
structure Config where
  ExcludeChannel : List Int
  ExcludeModel : List String
  Models : List String
  ForceModels : Bool
  TimePeriod : String
  DbType : String
  DbDsn : String
  deriving DecidableEq, Repr

/-! ## The store -/

/-- The two tables the program touches.  `abilities` is kept in insertion
order. -/
structure Store where
  channels : List Channel
  abilities : List Ability
  deriving DecidableEq, Repr

/-- The Ability rows of one channel (`WHERE channel_id = ?`). -/
def Store.abilitiesOf (s : Store) (channelID : Int) : List Ability :=
  s.abilities.filter (fun a => a.ChannelID = channelID)

/-- One row of the result of the `SELECT id, type, name, base_url, key, status,
models FROM channels ...` query of `fetchChannels`. -/
structure ChannelRow where
  id : Int
  type_ : Int
  name : String
  base_url : String
  key : String
  status : Int
  models : String
  deriving DecidableEq, Repr

/-- `rows.Scan(&c.ID, &c.Type, &c.Name, &c.BaseURL, &c.Key, &c.Status,
&c.Models)` into a zero-valued `Channel`: `DeletedAt` stays `nil`. -/
def scanChannel (r : ChannelRow) : Channel :=
  { ID := r.id, Type_ := r.type_, Name := r.name, BaseURL := r.base_url,
    Key := r.key, Status := r.status, Models := r.models, DeletedAt := none }

/-- Outcome of the `SELECT priority, weight FROM abilities WHERE channel_id = ?
LIMIT 1` query: an error, or success with the store's choice `pick` among the
matching rows (the query has no `ORDER BY`). -/
structure AbilityQuery where
  err : Option String
  pick : Nat
  deriving DecidableEq, Repr

/-- The row returned by the `LIMIT 1` query: none exactly when the channel has
no Ability row, otherwise the matching row chosen by `pick`. -/
def selectOneAbility (s : Store) (pick : Nat) (channelID : Int) : Option Ability :=
  let rows := s.abilitiesOf channelID
  rows[pick % rows.length]?

/-- `UPDATE channels SET models = ? WHERE id = ?`. -/
def execUpdateModels (s : Store) (modelsStr : String) (channelID : Int) : Store :=
  { s with channels :=
      s.channels.map (fun c => if c.ID = channelID then { c with Models := modelsStr } else c) }

/-- `DELETE FROM abilities WHERE channel_id = ?`. -/
def execDeleteAbilities (s : Store) (channelID : Int) : Store :=
  { s with abilities := s.abilities.filter (fun a => a.ChannelID ≠ channelID) }

/-- `INSERT INTO abilities (group, model, channel_id, enabled, priority, weight)
VALUES (?, ?, ?, ?, ?, ?)`. -/
def execInsertAbility (s : Store) (a : Ability) : Store :=
  { s with abilities := s.abilities ++ [a] }

/-! ## Store gateway (`main.go` 46-100) -/

/-- `getChannelDefaultConfig` (`main.go` 46-64). -/
def getChannelDefaultConfig (s : Store) (q : AbilityQuery) (channelID : Int) :
    ChannelConfig × Option String :=
  match q.err with
  | some e => (⟨0, 1⟩, some ("获取渠道默认配置失败：" ++ e))
  | none =>
    match selectOneAbility s q.pick channelID with
    | none => (⟨0, 1⟩, none)
    | some ability => (⟨ability.Priority, ability.Weight⟩, none)

/-- `deleteChannelAbilities` (`main.go` 67-74); `err` is the outcome of the
`DELETE` statement. -/
def deleteChannelAbilities (s : Store) (err : Option String) (channelID : Int) :
    Store × Option String :=
  match err with
  | some e => (s, some ("删除渠道能力失败：" ++ e))
  | none => (execDeleteAbilities s channelID, none)

/-- The `for _, model := range models` loop of `addChannelAbilities`; `i` is the
index of the next model, `errs i` the outcome of its `INSERT`. -/
def addChannelAbilitiesLoop (errs : Nat → Option String) (channelID : Int)
    (cfg : ChannelConfig) : List String → Nat → Store → Store × Option String
  | [], _, s => (s, none)
  | model :: rest, i, s =>
    let ability : Ability :=
      { Group := "default", Model := model, ChannelID := channelID, Enabled := true,
        Priority := cfg.Priority, Weight := cfg.Weight }
    match errs i with
    | some e => (s, some ("添加模型能力失败：" ++ e))
    | none => addChannelAbilitiesLoop errs channelID cfg rest (i + 1) (execInsertAbility s ability)

/-- `addChannelAbilities` (`main.go` 77-100). -/
def addChannelAbilities (s : Store) (errs : Nat → Option String) (channelID : Int)
    (models : List String) (cfg : ChannelConfig) : Store × Option String :=
  addChannelAbilitiesLoop errs channelID cfg models 0 s

/-- `contains` (`main.go` 103-110). -/
def contains : List Int → Int → Bool
  | [], _ => false
  | v :: rest, item => if v = item then true else contains rest item

/-- `containsString` (`main.go` 112-119). -/
def containsString : List String → String → Bool
  | [], _ => false
  | v :: rest, item => if v = item then true else containsString rest item

/-! ## Channel selector (`main.go` 121-173) -/

/-- The `for rows.Next()` loop of `fetchChannels`; each element of the input is
the outcome of `rows.Scan` on the next row. -/
def fetchChannelsLoop (config : Config) :
    List (Except String ChannelRow) → List Channel → Except String (List Channel)
  | [], channels => .ok channels
  | .error e :: _, _ => .error ("扫描渠道数据失败：" ++ e)
  | .ok r :: rest, channels =>
    let c := scanChannel r
    if contains config.ExcludeChannel c.ID then
      fetchChannelsLoop config rest channels
    else if c.Type_ = 40 ∨ c.Type_ = 999 then
      let c := { c with BaseURL := "https://api.siliconflow.cn" }
      fetchChannelsLoop config rest (channels ++ [c])
    else if c.Type_ = 1 ∧ c.BaseURL ≠ "" then
      fetchChannelsLoop config rest (channels ++ [c])
    else
      fetchChannelsLoop config rest channels

/-- `fetchChannels` (`main.go` 121-173); `query` is the outcome of
`db.Raw(query).Rows()`: an error, or the rows in store order. -/
def fetchChannels (config : Config)
    (query : Except String (List (Except String ChannelRow))) :
    Except String (List Channel) :=
  match query with
  | .error e => .error ("查询渠道失败：" ++ e)
  | .ok rows => fetchChannelsLoop config rows []

/-! ## Reconciler (`main.go` 176-190) -/

/-- Outcomes of the store statements issued by one `updateChannelModels` call:
the `UPDATE`, the `DELETE`, and the `INSERT` for the model at each index. -/
structure ReconcileFaults where
  update : Option String
  delete : Option String
  insert : Nat → Option String

/-- No statement fails. -/
def noFaults : ReconcileFaults :=
  { update := none, delete := none, insert := fun _ => none }

/-- `updateChannelModels` (`main.go` 176-190). -/
def updateChannelModels (s : Store) (f : ReconcileFaults) (channel : Channel)
    (models : List String) (cfg : ChannelConfig) : Store × Option String :=
  let modelsStr := strings.Join models ","
  match f.update with
  | some e => (s, some ("更新渠道模型失败：" ++ e))
  | none =>
    let s := execUpdateModels s modelsStr channel.ID
    match deleteChannelAbilities s f.delete channel.ID with
    | (s, some err) => (s, some err)
    | (s, none) => addChannelAbilities s f.insert channel.ID models cfg

/-! ## Model prober (`main.go` 193-298) -/

/-- An HTTP request actually sent by `client.Do`. -/
inductive HttpCall where
  | get (url : String) (authorization : String)
  | post (url : String) (authorization : String) (model : String)
  deriving DecidableEq, Repr

/-- Outcome of the model-listing call `client.Do(req)` followed by
`json.Unmarshal` of the body: a transport error, or a response with its status
code and the outcome of parsing its body into the list of `data[i].id`. -/
inductive ListingOutcome where
  | transportError (msg : String)
  | response (statusCode : Nat) (parsed : Except String (List String))

/-- Outcome of one health check: `http.NewRequest` failed (nothing is sent),
`client.Do` failed, or a response with its status code and body. -/
inductive HealthOutcome where
  | requestError (msg : String)
  | transportError (msg : String)
  | response (statusCode : Nat) (body : String)
  deriving DecidableEq, Repr

/-- The `for _, model := range response.Data` loop (`main.go` 238-244). -/
def filterListedModels (config : Config) : List String → List String → List String
  | [], modelList => modelList
  | id :: rest, modelList =>
    if containsString config.ExcludeModel id then filterListedModels config rest modelList
    else filterListedModels config rest (modelList ++ [id])

/-- The fallback of `main.go` 213-219 and 232-236. -/
def storedOrDefaultModels (config : Config) (channel : Channel) : List String :=
  if channel.Models ≠ "" then strings.Split channel.Models ','
  else config.Models

/-- Candidate-list resolution, `main.go` 195-247.  `newRequestErr` is the
outcome of `http.NewRequest("GET", channel.BaseURL+"/v1/models", nil)`,
`listing` the outcome of the call.  Returns the candidate list (or the error
with which `testChannelModels` returns) and the requests sent. -/
def candidateModels (config : Config) (channel : Channel)
    (newRequestErr : Option String) (listing : ListingOutcome) :
    Except String (List String) × List HttpCall :=
  if config.ForceModels then
    (.ok config.Models, [])
  else
    match newRequestErr with
    | some e => (.error ("创建请求失败：" ++ e), [])
    | none =>
      let call := HttpCall.get (channel.BaseURL ++ "/v1/models") ("Bearer " ++ channel.Key)
      match listing with
      | .transportError _ => (.ok (storedOrDefaultModels config channel), [call])
      | .response statusCode parsed =>
        if statusCode ≠ 200 then
          (.ok (storedOrDefaultModels config channel), [call])
        else
          match parsed with
          | .error _ => (.ok (storedOrDefaultModels config channel), [call])
          | .ok ids => (.ok (filterListedModels config ids []), [call])

/-- Construction of the completions URL, `main.go` 250-259. -/
def completionsURL (baseURL : String) : String :=
  let url := baseURL
  if !strings.Contains baseURL "/v1/chat/completions" then
    let url :=
      if !strings.HasSuffix baseURL "/chat" then
        let url := if !strings.HasSuffix baseURL "/v1" then url ++ "/v1" else url
        url ++ "/chat"
      else url
    url ++ "/completions"
  else url

/-- The health-check loop `for _, model := range modelList`, `main.go` 249-295;
`i` is the index of the next candidate and `health i` the outcome of its check. -/
def healthCheckLoop (channel : Channel) (health : Nat → HealthOutcome) :
    List String → Nat → List String → List HttpCall → List String × List HttpCall
  | [], _, availableModels, calls => (availableModels, calls)
  | model :: rest, i, availableModels, calls =>
    let url := completionsURL channel.BaseURL
    match health i with
    | .requestError _ => healthCheckLoop channel health rest (i + 1) availableModels calls
    | .transportError _ =>
      healthCheckLoop channel health rest (i + 1) availableModels
        (calls ++ [.post url ("Bearer " ++ channel.Key) model])
    | .response statusCode _ =>
      if statusCode = 200 then
        healthCheckLoop channel health rest (i + 1) (availableModels ++ [model])
          (calls ++ [.post url ("Bearer " ++ channel.Key) model])
      else
        healthCheckLoop channel health rest (i + 1) availableModels
          (calls ++ [.post url ("Bearer " ++ channel.Key) model])

/-- `testChannelModels` (`main.go` 193-298): the verified models (or an error)
and the HTTP requests sent, in order. -/
def testChannelModels (config : Config) (channel : Channel)
    (newRequestErr : Option String) (listing : ListingOutcome)
    (health : Nat → HealthOutcome) : Except String (List String) × List HttpCall :=
  match candidateModels config channel newRequestErr listing with
  | (.error e, calls) => (.error e, calls)
  | (.ok modelList, calls) =>
    let r := healthCheckLoop channel health modelList 0 [] calls
    (.ok r.1, r.2)

/-! ## Pass driver (`main.go` 317-358) -/

/-- Outcomes of every external call made while one channel is processed. -/
structure ChannelWorld where
  configQuery : AbilityQuery
  newRequestErr : Option String
  listing : ListingOutcome
  health : Nat → HealthOutcome
  faults : ReconcileFaults

/-- Resolution of the `ChannelConfig` in the channel loop, `main.go` 332-336. -/
def resolveConfig (s : Store) (q : AbilityQuery) (channelID : Int) : ChannelConfig :=
  match getChannelDefaultConfig s q channelID with
  | (_, some _) => ⟨0, 1⟩
  | (cfg, none) => cfg

/-- Resolve the config, then reconcile with a given verified list: the store
part of the body of the channel loop (`main.go` 332-336 and 349). -/
def reconcileChannel (s : Store) (q : AbilityQuery) (f : ReconcileFaults)
    (channel : Channel) (models : List String) : Store × Option String :=
  let cfg := resolveConfig s q channel.ID
  updateChannelModels s f channel models cfg

/-- Body of the channel loop of `main` (`main.go` 329-354). -/
def processChannel (config : Config) (s : Store) (w : ChannelWorld) (channel : Channel) :
    Store :=
  let cfg := resolveConfig s w.configQuery channel.ID
  match (testChannelModels config channel w.newRequestErr w.listing w.health).1 with
  | .error _ => s
  | .ok models => (updateChannelModels s w.faults channel models cfg).1

/-- Observable steps of the driver. -/
inductive Event where
  | fetch
  | channel (id : Int)
  | tick
  deriving DecidableEq, Repr

/-- The loop `for _, channel := range channels` of `main`; `world i` gives the
outcomes for the channel at position `i`. -/
def processChannels (config : Config) (world : Nat → ChannelWorld) :
    List Channel → Nat → Store → List Event → Store × List Event
  | [], _, s, events => (s, events)
  | channel :: rest, i, s, events =>
    processChannels config world rest (i + 1) (processChannel config s (world i) channel)
      (events ++ [.channel channel.ID])

/-- Outcomes of the external calls of one iteration of the driver loop. -/
structure PassWorld where
  query : Except String (List (Except String ChannelRow))
  channel : Nat → ChannelWorld

/-- The driver loop `for { ... }` of `main` (`main.go` 320-358), run for `fuel`
iterations starting at iteration `iter`.  `.fetch` records a call of
`fetchChannels`, `.tick` the receive `<-ticker.C`. -/
def mainLoop (config : Config) (world : Nat → PassWorld) :
    Nat → Nat → Store → List Event → Store × List Event
  | 0, _, s, events => (s, events)
  | fuel + 1, iter, s, events =>
    match fetchChannels config (world iter).query with
    | .error _ => mainLoop config world fuel (iter + 1) s (events ++ [.fetch])
    | .ok channels =>
      let r := processChannels config (world iter).channel channels 0 s (events ++ [.fetch])
      mainLoop config world fuel (iter + 1) r.1 (r.2 ++ [.tick])

/-! ## Definitions used to state the properties -/

/-- The completions URL as the specification words its construction: the base
URL itself if it contains `/v1/chat/completions`; otherwise append `/v1` unless
the URL so far ends in `/v1`, then `/chat` unless the URL so far ends in
`/chat`, then `/completions`. -/
def specCompletionsURL (baseURL : String) : String :=
  if strings.Contains baseURL "/v1/chat/completions" then baseURL
  else
    let u1 := if strings.HasSuffix baseURL "/v1" then baseURL else baseURL ++ "/v1"
    let u2 := if strings.HasSuffix u1 "/chat" then u1 else u1 ++ "/chat"
    u2 ++ "/completions"

/-- A sequence of passes over one channel with every store operation
succeeding: each pass resolves the `ChannelConfig` (the store picking row `pick`
for the `LIMIT 1` query) and then reconciles with that pass's verified list. -/
def runPasses (s : Store) (channel : Channel) : List (Nat × List String) → Store
  | [] => s
  | (pick, models) :: rest =>
    runPasses (reconcileChannel s ⟨none, pick⟩ noFaults channel models).1 channel rest

/-! ## Concrete inputs -/

/-- Channel 5 of the specification's scenarios. -/
def channel5 : Channel :=
  { ID := 5, Type_ := 1, Name := "x", BaseURL := "https://x.com", Key := "sk-5", Status := 1,
    Models := "gpt-a,gpt-b", DeletedAt := none }

/-- A store in which channel 5 has one Ability row with priority 3 and weight 7. -/
def store5 : Store :=
  { channels := [channel5],
    abilities :=
      [{ Group := "default", Model := "gpt-old", ChannelID := 5, Enabled := true,
         Priority := 3, Weight := 7 }] }

/-- A type-1 channel whose stored base URL has a space in the host name; Go's
`http.NewRequest` rejects the URL built from it. -/
def malformedChannel : Channel :=
  { ID := 6, Type_ := 1, Name := "y", BaseURL := "https://x .com", Key := "sk-6", Status := 1,
    Models := "gpt-a,gpt-b", DeletedAt := none }

/-- The `UPDATE` and the `DELETE` succeed, the second `INSERT` fails. -/
def secondInsertFails : ReconcileFaults :=
  { update := none, delete := none,
    insert := fun i => if i = 1 then some "duplicate entry" else none }

/-- The `UPDATE` fails. -/
def updateFails : ReconcileFaults :=
  { update := some "connection lost", delete := none, insert := fun _ => none }

/-- A configuration with nothing excluded and live discovery. -/
def liveConfig : Config :=
  { ExcludeChannel := [], ExcludeModel := [], Models := ["gpt-default"], ForceModels := false,
    TimePeriod := "1h", DbType := "sqlite", DbDsn := "monitor.db" }

/-- A configuration with the force-models policy and an empty fixed list. -/
def forcedEmptyConfig : Config :=
  { ExcludeChannel := [], ExcludeModel := [], Models := [], ForceModels := true,
    TimePeriod := "1h", DbType := "sqlite", DbDsn := "monitor.db" }

/-- External outcomes for one channel: discovery fails, every health check
fails in transport, every store statement succeeds. -/
def unreachableChannel : ChannelWorld :=
  { configQuery := ⟨none, 0⟩, newRequestErr := none,
    listing := .transportError "dial tcp: timeout",
    health := fun _ => .transportError "dial tcp: timeout", faults := noFaults }

/-- The channel query fails in the first iteration of the driver loop and
returns the row of channel 5 in every later one. -/
def outageWorld : Nat → PassWorld := fun iter =>
  { query :=
      if iter = 0 then .error "connection refused"
      else .ok [.ok { id := 5, type_ := 1, name := "x", base_url := "https://x.com",
                      key := "sk-5", status := 1, models := "gpt-a,gpt-b" }],
    channel := fun _ => unreachableChannel }

/-! ## Theorems -/

/-! ### `strings.Split` and `strings.Join` -/

theorem splitChars_ne_nil (sep : Char) (cs : List Char) : strings.splitChars sep cs ≠ [] := by
  cases cs with
  | nil => simp [strings.splitChars]
  | cons c cs =>
    unfold strings.splitChars
    split
    · simp
    · split <;> simp

theorem Join_splitChars (sep : Char) (cs : List Char) :
    (strings.Join ((strings.splitChars sep cs).map String.mk) (String.singleton sep)).data
      = cs := by
  induction cs with
  | nil => simp [strings.splitChars, strings.Join]
  | cons c cs ih =>
    unfold strings.splitChars
    by_cases hc : c = sep
    · rw [if_pos hc]
      cases hs : strings.splitChars sep cs with
      | nil => exact absurd hs (splitChars_ne_nil sep cs)
      | cons w ws =>
        rw [hs] at ih
        simp only [List.map_cons, strings.Join, String.data_append] at ih ⊢
        rw [ih, hc]
        rfl
    · rw [if_neg hc]
      cases hs : strings.splitChars sep cs with
      | nil => exact absurd hs (splitChars_ne_nil sep cs)
      | cons w ws =>
        rw [hs] at ih
        cases ws with
        | nil =>
          simp only [List.map_cons, List.map_nil, strings.Join] at ih ⊢
          rw [← ih]
        | cons w₂ ws₂ =>
          simp only [List.map_cons, strings.Join, String.data_append] at ih ⊢
          rw [← ih]
          simp

/-- Joining the parts of `strings.Split s ","` with `","` gives `s` back. -/
theorem Join_Split (s : String) : strings.Join (strings.Split s ',') "," = s := by
  apply String.ext
  exact Join_splitChars ',' s.data

/-- No part of `strings.Split s sep` contains the separator. -/
theorem Split_parts_no_sep (sep : Char) (s : String) :
    ∀ part ∈ strings.Split s sep, sep ∉ part.data := by
  have key : ∀ cs : List Char, ∀ w ∈ strings.splitChars sep cs, sep ∉ w := by
    intro cs
    induction cs with
    | nil => simp [strings.splitChars]
    | cons c cs ih =>
      unfold strings.splitChars
      by_cases hc : c = sep
      · rw [if_pos hc]
        intro w hw
        rcases List.mem_cons.1 hw with h | h
        · simp [h]
        · exact ih w h
      · rw [if_neg hc]
        cases hs : strings.splitChars sep cs with
        | nil => exact absurd hs (splitChars_ne_nil sep cs)
        | cons w₀ ws =>
          rw [hs] at ih
          intro w hw
          rcases List.mem_cons.1 hw with h | h
          · subst h
            have h0 := ih w₀ (List.mem_cons_self _ _)
            intro hmem
            rcases List.mem_cons.1 hmem with h1 | h1
            · exact hc h1.symm
            · exact h0 h1
          · exact ih w (List.mem_cons_of_mem _ h)
  intro part hpart
  simp only [strings.Split, List.mem_map] at hpart
  obtain ⟨w, hw, rfl⟩ := hpart
  exact key s.data w hw

/-! ### Strings and the completions URL -/

theorem containsChars_iff_isInfix (s p : List Char) :
    strings.containsChars s p = true ↔ p <:+: s := by
  induction s with
  | nil => simp [strings.containsChars, List.isEmpty_iff]
  | cons c cs ih =>
    simp only [strings.containsChars, Bool.or_eq_true, ih, List.isPrefixOf_iff_prefix,
      List.infix_cons_iff]

theorem Contains_iff (s p : String) :
    strings.Contains s p = true ↔ p.data <:+: s.data := by
  simp [strings.Contains, containsChars_iff_isInfix]

theorem HasSuffix_iff (s p : String) :
    strings.HasSuffix s p = true ↔ p.data <:+ s.data := by
  simp [strings.HasSuffix]

theorem completionsURL_of_contains (b : String)
    (h : strings.Contains b "/v1/chat/completions" = true) : completionsURL b = b := by
  simp [completionsURL, h]

theorem HasSuffix_append_v1_chat (b : String) :
    strings.HasSuffix (b ++ "/v1") "/chat" = false := by
  rw [Bool.eq_false_iff]
  intro h
  rw [HasSuffix_iff] at h
  have h2 := h.reverse
  simp [String.data_append] at h2

theorem completionsURL_eq (b : String) :
    completionsURL b =
      if strings.Contains b "/v1/chat/completions" = true then b
      else if strings.HasSuffix b "/chat" = true then b ++ "/completions"
      else if strings.HasSuffix b "/v1" = true then b ++ "/chat/completions"
      else b ++ "/v1/chat/completions" := by
  unfold completionsURL
  by_cases h1 : strings.Contains b "/v1/chat/completions" = true
  · simp [h1]
  · by_cases h2 : strings.HasSuffix b "/chat" = true
    · simp [h1, h2]
    · by_cases h3 : strings.HasSuffix b "/v1" = true
      · simp [h1, h2, h3, String.ext_iff, String.data_append]
      · simp [h1, h2, h3, String.ext_iff, String.data_append]

theorem no_border (xs : List Char)
    (h1 : ¬ "/v1/chat/completions".data <:+: xs)
    (h2 : ¬ "/v1/chat".data <:+ xs) :
    ¬ "/v1/chat/completions".data <:+: xs ++ "/completions".data := by
  rintro ⟨s, t, hst⟩
  have ht : t <:+ xs ++ "/completions".data := ⟨s ++ "/v1/chat/completions".data, hst⟩
  have hc : "/completions".data <:+ xs ++ "/completions".data := List.suffix_append _ _
  rcases List.suffix_or_suffix_of_suffix ht hc with h | h
  · obtain ⟨u, hu⟩ := h
    rw [← hu, ← List.append_assoc] at hst
    have hsu : s ++ "/v1/chat/completions".data = xs ++ u := List.append_cancel_right hst
    have hu1 : u <:+ s ++ "/v1/chat/completions".data := ⟨xs, hsu.symm⟩
    have hlen : u.length ≤ 12 := by
      have := congrArg List.length hu
      simp at this
      omega
    have hu2 : u <:+ "/v1/chat/completions".data :=
      List.suffix_of_suffix_length_le hu1 (List.suffix_append _ _) (by simp; omega)
    have hu3 : u <+: "/completions".data := ⟨t, hu⟩
    rw [List.suffix_iff_eq_drop] at hu2
    rw [List.prefix_iff_eq_take] at hu3
    generalize hn : u.length = n at hu2 hu3 hlen
    have key : List.take n "/completions".data
        = List.drop ("/v1/chat/completions".data.length - n) "/v1/chat/completions".data := by
      rw [← hu3, ← hu2]
    interval_cases n
    · have : u = [] := List.length_eq_zero.mp hn
      subst this
      exact h1 ⟨s, [], by simpa using hsu⟩
    all_goals first
      | (exfalso; revert key; decide)
      | skip
    · have hu4 : u = "/completions".data := by simpa using hu3
      subst hu4
      apply h2
      refine ⟨s, ?_⟩
      have : s ++ "/v1/chat".data ++ "/completions".data = xs ++ "/completions".data := by
        rw [← hsu]; simp
      exact List.append_cancel_right this
  · obtain ⟨u, hu⟩ := h
    apply h1
    rw [← hu] at hst
    refine ⟨s, u, ?_⟩
    have : (s ++ "/v1/chat/completions".data ++ u) ++ "/completions".data
        = xs ++ "/completions".data := by
      rw [← hst]; simp
    exact List.append_cancel_right this


theorem contains_append_pattern (b : String) :
    strings.Contains (b ++ "/v1/chat/completions") "/v1/chat/completions" = true := by
  rw [Contains_iff, String.data_append]
  exact ⟨b.data, [], by simp⟩

theorem contains_of_suffix_v1 (b : String) (h : strings.HasSuffix b "/v1" = true) :
    strings.Contains (b ++ "/chat/completions") "/v1/chat/completions" = true := by
  rw [HasSuffix_iff] at h
  obtain ⟨t, ht⟩ := h
  rw [Contains_iff, String.data_append, ← ht]
  exact ⟨t, [], by simp⟩

theorem contains_of_suffix_v1_chat (b : String) (h : strings.HasSuffix b "/v1/chat" = true) :
    strings.Contains (b ++ "/completions") "/v1/chat/completions" = true := by
  rw [HasSuffix_iff] at h
  obtain ⟨t, ht⟩ := h
  rw [Contains_iff, String.data_append, ← ht]
  exact ⟨t, [], by simp⟩

theorem not_suffix_chat_append_completions (b : String) :
    strings.HasSuffix (b ++ "/completions") "/chat" = false := by
  rw [Bool.eq_false_iff]
  intro h
  rw [HasSuffix_iff] at h
  have h2 := h.reverse
  simp [String.data_append] at h2

theorem append_ne_self (u v : String) (hv : v.length ≠ 0) : u ++ v ≠ u := by
  intro h
  have := congrArg (fun s => s.data.length) h
  simp [String.data_append] at this
  exact hv this

/-- C5 (amended): applying the completions-URL construction of `testChannelModels`
to its own result returns that result exactly when the base URL contains
`/v1/chat/completions`, or does not end in `/chat`, or ends in `/v1/chat`; and a
URL that already contains `/v1/chat/completions` is returned unchanged. -/
theorem completionsURL_idempotent_iff (b : String) :
    (completionsURL (completionsURL b) = completionsURL b ↔
      (strings.Contains b "/v1/chat/completions" = true ∨
        strings.HasSuffix b "/chat" = false ∨
        strings.HasSuffix b "/v1/chat" = true)) ∧
    (strings.Contains b "/v1/chat/completions" = true → completionsURL b = b) := by
  refine ⟨?_, completionsURL_of_contains b⟩
  by_cases h1 : strings.Contains b "/v1/chat/completions" = true
  · simp [completionsURL_of_contains b h1, h1]
  · by_cases h2 : strings.HasSuffix b "/chat" = true
    · have hb : completionsURL b = b ++ "/completions" := by
        rw [completionsURL_eq]; simp [h1, h2]
      by_cases h3 : strings.HasSuffix b "/v1/chat" = true
      · have := contains_of_suffix_v1_chat b h3
        simp [hb, completionsURL_of_contains _ this, h3]
      · have hnc : ¬ strings.Contains (b ++ "/completions") "/v1/chat/completions" = true := by
          rw [Contains_iff, String.data_append]
          apply no_border
          · rwa [← Contains_iff]
          · rwa [← HasSuffix_iff]
        have hns := not_suffix_chat_append_completions b
        have hne : completionsURL (b ++ "/completions") ≠ b ++ "/completions" := by
          rw [completionsURL_eq]
          simp only [hnc, hns, if_false, Bool.false_eq_true]
          split
          · exact append_ne_self _ _ (by decide)
          · exact append_ne_self _ _ (by decide)
        simp [hb, hne, h1, h2, h3]
    · have hc : strings.Contains (completionsURL b) "/v1/chat/completions" = true := by
        rw [completionsURL_eq]
        by_cases h3 : strings.HasSuffix b "/v1" = true
        · simpa [h1, h2, h3] using contains_of_suffix_v1 b h3
        · simpa [h1, h2, h3] using contains_append_pattern b
      simp [completionsURL_of_contains _ hc, h2]

/-- C6 (amended): the health-check URL built by `testChannelModels` is the base URL
itself if it contains `/v1/chat/completions`; otherwise the base URL followed by
`/completions` if it ends in `/chat`; otherwise the base URL, followed by `/v1`
unless it ends in `/v1`, followed by `/chat` and `/completions`.  It is the
result of the specified construction for every base URL except those that end
in `/chat` without containing `/v1/chat/completions`. -/
theorem completionsURL_eq_spec (b : String) :
    completionsURL b =
      (if strings.Contains b "/v1/chat/completions" = true then b
       else if strings.HasSuffix b "/chat" = true then b ++ "/completions"
       else (if strings.HasSuffix b "/v1" = true then b else b ++ "/v1")
         ++ "/chat" ++ "/completions") ∧
    completionsURL b =
      (if strings.Contains b "/v1/chat/completions" = false ∧ strings.HasSuffix b "/chat" = true
       then b ++ "/completions"
       else specCompletionsURL b) := by
  rw [completionsURL_eq]
  unfold specCompletionsURL
  by_cases h1 : strings.Contains b "/v1/chat/completions" = true
  · simp [h1]
  · by_cases h2 : strings.HasSuffix b "/chat" = true
    · simp [h1, h2]
    · by_cases h3 : strings.HasSuffix b "/v1" = true
      · simp [h1, h2, h3, String.ext_iff, String.data_append]
      · simp [h1, h2, h3, HasSuffix_append_v1_chat, String.ext_iff, String.data_append]

/-- C6 (counterexample): for the base URL `https://api.example.com/v1/chat` the code
builds `https://api.example.com/v1/chat/completions`, the specified construction
gives `https://api.example.com/v1/chat/v1/chat/completions`. -/
theorem completionsURL_ne_specCompletionsURL :
    completionsURL "https://api.example.com/v1/chat"
      = "https://api.example.com/v1/chat/completions" ∧
    specCompletionsURL "https://api.example.com/v1/chat"
      = "https://api.example.com/v1/chat/v1/chat/completions" ∧
    completionsURL "https://api.example.com/v1/chat"
      ≠ specCompletionsURL "https://api.example.com/v1/chat" := by
  decide

/-- C5 (counterexample): for the base URL `https://api.example.com/chat` a second
application of the construction appends `/v1/chat/completions` again. -/
theorem completionsURL_not_idempotent :
    completionsURL "https://api.example.com/chat"
      = "https://api.example.com/chat/completions" ∧
    completionsURL (completionsURL "https://api.example.com/chat")
      = "https://api.example.com/chat/completions/v1/chat/completions" ∧
    completionsURL (completionsURL "https://api.example.com/chat")
      ≠ completionsURL "https://api.example.com/chat" := by
  decide

/-- C5 (witness): the characterisation at `https://api.example.com/v1`, which does
not end in `/chat`, and at a complete URL. -/
theorem completionsURL_idempotent_iff_witness :
    completionsURL (completionsURL "https://api.example.com/v1")
      = completionsURL "https://api.example.com/v1" ∧
    completionsURL "https://api.example.com/v1/chat/completions"
      = "https://api.example.com/v1/chat/completions" :=
  ⟨(completionsURL_idempotent_iff "https://api.example.com/v1").1.2 (Or.inr (Or.inl (by decide))),
   (completionsURL_idempotent_iff "https://api.example.com/v1/chat/completions").2 (by decide)⟩

/-! ### Reconciliation -/

theorem addChannelAbilitiesLoop_spec (errs : Nat → Option String) (channelID : Int)
    (cfg : ChannelConfig) (models : List String) :
    ∀ (i : Nat) (s : Store), ∃ k, k ≤ models.length ∧
      (addChannelAbilitiesLoop errs channelID cfg models i s).1.abilities
        = s.abilities ++ (models.take k).map (fun m =>
            { Group := "default", Model := m, ChannelID := channelID, Enabled := true,
              Priority := cfg.Priority, Weight := cfg.Weight }) ∧
      (addChannelAbilitiesLoop errs channelID cfg models i s).1.channels = s.channels ∧
      (∀ j, j < k → errs (i + j) = none) ∧
      (k < models.length →
        errs (i + k) ≠ none ∧ (addChannelAbilitiesLoop errs channelID cfg models i s).2 ≠ none) ∧
      (k = models.length → (addChannelAbilitiesLoop errs channelID cfg models i s).2 = none) := by
  induction models with
  | nil => intro i s; exact ⟨0, by simp [addChannelAbilitiesLoop]⟩
  | cons m rest ih =>
    intro i s
    cases he : errs i with
    | some e =>
      refine ⟨0, by simp, ?_⟩
      simp [addChannelAbilitiesLoop, he]
    | none =>
      obtain ⟨k, hk, hab, hch, hok, hfail, hall⟩ :=
        ih (i + 1) (execInsertAbility s
          { Group := "default", Model := m, ChannelID := channelID, Enabled := true,
            Priority := cfg.Priority, Weight := cfg.Weight })
      refine ⟨k + 1, by simpa using hk, ?_, ?_, ?_, ?_, ?_⟩
      · simp only [addChannelAbilitiesLoop, he, hab]
        simp [execInsertAbility]
      · simp only [addChannelAbilitiesLoop, he, hch]
        simp [execInsertAbility]
      · intro j hj
        cases j with
        | zero => simpa using he
        | succ j =>
          have := hok j (by omega)
          rwa [show i + (j + 1) = i + 1 + j by omega]
      · intro hlt
        have := hfail (by simpa using hlt)
        rw [show i + (k + 1) = i + 1 + k by omega]
        simpa only [addChannelAbilitiesLoop, he] using this
      · intro heq
        have := hall (by simpa using heq)
        simpa only [addChannelAbilitiesLoop, he] using this

theorem abilitiesOf_delete_append (s : Store) (channelID : Int) (new : List Ability)
    (hnew : ∀ a ∈ new, a.ChannelID = channelID) :
    List.filter (fun a => decide (a.ChannelID = channelID))
      (List.filter (fun a => decide (a.ChannelID ≠ channelID)) s.abilities ++ new) = new := by
  rw [List.filter_append, List.filter_filter]
  have h1 : List.filter (fun a : Ability =>
      decide (a.ChannelID = channelID) && decide (a.ChannelID ≠ channelID)) s.abilities = [] := by
    rw [List.filter_eq_nil_iff]
    intro a _
    simp
  have h2 : List.filter (fun a : Ability => decide (a.ChannelID = channelID)) new = new := by
    rw [List.filter_eq_self]
    intro a ha
    simpa using hnew a ha
  rw [h1, h2, List.nil_append]


theorem updateChannelModels_of_update_ok (s : Store) (f : ReconcileFaults) (channel : Channel)
    (models : List String) (cfg : ChannelConfig) (hu : f.update = none) (hd : f.delete = none) :
    updateChannelModels s f channel models cfg =
      addChannelAbilitiesLoop f.insert channel.ID cfg models 0
        (execDeleteAbilities (execUpdateModels s (strings.Join models ",") channel.ID)
          channel.ID) := by
  simp [updateChannelModels, hu, hd, deleteChannelAbilities, addChannelAbilities]

theorem updateChannelModels_inserted (s : Store) (f : ReconcileFaults) (channel : Channel)
    (models : List String) (cfg : ChannelConfig) (hu : f.update = none) (hd : f.delete = none) :
    ∃ k, k ≤ models.length ∧
      (updateChannelModels s f channel models cfg).1.abilities
        = s.abilities.filter (fun a => a.ChannelID ≠ channel.ID) ++
          (models.take k).map (fun m =>
            { Group := "default", Model := m, ChannelID := channel.ID, Enabled := true,
              Priority := cfg.Priority, Weight := cfg.Weight }) ∧
      (updateChannelModels s f channel models cfg).1.channels
        = s.channels.map (fun c =>
            if c.ID = channel.ID then { c with Models := strings.Join models "," } else c) ∧
      (∀ j, j < k → f.insert j = none) ∧
      (k < models.length →
        f.insert k ≠ none ∧ (updateChannelModels s f channel models cfg).2 ≠ none) ∧
      (k = models.length → (updateChannelModels s f channel models cfg).2 = none) := by
  rw [updateChannelModels_of_update_ok s f channel models cfg hu hd]
  obtain ⟨k, hk, hab, hch, hok, hfail, hall⟩ :=
    addChannelAbilitiesLoop_spec f.insert channel.ID cfg models 0
      (execDeleteAbilities (execUpdateModels s (strings.Join models ",") channel.ID) channel.ID)
  refine ⟨k, hk, ?_, ?_, ?_, ?_, hall⟩
  · rw [hab]; rfl
  · rw [hch]; rfl
  · intro j hj; simpa using hok j hj
  · intro hlt; simpa using hfail hlt

/-- C7 (amended): after `updateChannelModels` returns, the channel's Ability rows
are exactly the rows it had before the call when the `UPDATE` or the `DELETE`
failed (an error is returned); otherwise they are exactly the new rows for the
first `k` verified models, in order, where `k` counts the models before the
first failing `INSERT`: an error is returned when `k` is short of the list, and
success when `k` is its length. -/
theorem updateChannelModels_rows_after (s : Store) (f : ReconcileFaults) (channel : Channel)
    (models : List String) (cfg : ChannelConfig) :
    (f.update ≠ none ∨ f.delete ≠ none →
      (updateChannelModels s f channel models cfg).1.abilitiesOf channel.ID
        = s.abilitiesOf channel.ID ∧
      (updateChannelModels s f channel models cfg).2 ≠ none) ∧
    (f.update = none → f.delete = none →
      ∃ k, k ≤ models.length ∧
        (updateChannelModels s f channel models cfg).1.abilitiesOf channel.ID
          = (models.take k).map (fun m =>
              { Group := "default", Model := m, ChannelID := channel.ID, Enabled := true,
                Priority := cfg.Priority, Weight := cfg.Weight }) ∧
        (∀ j, j < k → f.insert j = none) ∧
        (k < models.length →
          f.insert k ≠ none ∧ (updateChannelModels s f channel models cfg).2 ≠ none) ∧
        (k = models.length → (updateChannelModels s f channel models cfg).2 = none)) := by
  constructor
  · intro h
    cases hu : f.update with
    | some e => simp [updateChannelModels, hu]
    | none =>
      cases hd : f.delete with
      | some e =>
        simp [updateChannelModels, hu, hd, deleteChannelAbilities, Store.abilitiesOf,
          execUpdateModels]
      | none => simp [hu, hd] at h
  · intro hu hd
    obtain ⟨k, hk, hab, _, hok, hfail, hall⟩ :=
      updateChannelModels_inserted s f channel models cfg hu hd
    refine ⟨k, hk, ?_, hok, hfail, hall⟩
    rw [Store.abilitiesOf, hab]
    apply abilitiesOf_delete_append
    intro a ha
    simp only [List.mem_map] at ha
    obtain ⟨m, _, rfl⟩ := ha
    rfl

theorem updateChannelModels_success_store (s : Store) (f : ReconcileFaults) (channel : Channel)
    (models : List String) (cfg : ChannelConfig)
    (h : (updateChannelModels s f channel models cfg).2 = none) :
    (updateChannelModels s f channel models cfg).1 =
      { channels := s.channels.map (fun c =>
          if c.ID = channel.ID then { c with Models := strings.Join models "," } else c),
        abilities := s.abilities.filter (fun a => a.ChannelID ≠ channel.ID) ++
          models.map (fun m =>
            { Group := "default", Model := m, ChannelID := channel.ID, Enabled := true,
              Priority := cfg.Priority, Weight := cfg.Weight }) } := by
  have hu : f.update = none := by
    cases hu : f.update with
    | none => rfl
    | some e => simp [updateChannelModels, hu] at h
  have hd : f.delete = none := by
    cases hd : f.delete with
    | none => rfl
    | some e => simp [updateChannelModels, hu, hd, deleteChannelAbilities] at h
  obtain ⟨k, hk, hab, hch, _, hfail, _⟩ :=
    updateChannelModels_inserted s f channel models cfg hu hd
  have hkl : k = models.length := by
    by_contra hne
    exact (hfail (by omega)).2 h
  subst hkl
  rw [List.take_length] at hab
  cases hr : (updateChannelModels s f channel models cfg).1 with
  | mk cs as =>
    rw [hr] at hab hch
    simp only at hab hch
    rw [hab, hch]

theorem updateChannelModels_success_rows (s : Store) (f : ReconcileFaults) (channel : Channel)
    (models : List String) (cfg : ChannelConfig)
    (h : (updateChannelModels s f channel models cfg).2 = none) :
    (updateChannelModels s f channel models cfg).1.abilitiesOf channel.ID
      = models.map (fun m =>
          { Group := "default", Model := m, ChannelID := channel.ID, Enabled := true,
            Priority := cfg.Priority, Weight := cfg.Weight }) := by
  rw [updateChannelModels_success_store s f channel models cfg h, Store.abilitiesOf]
  apply abilitiesOf_delete_append
  intro a ha
  simp only [List.mem_map] at ha
  obtain ⟨m, _, rfl⟩ := ha
  rfl

/-- C1: when `updateChannelModels` returns success, the Ability rows of the
channel are exactly one row per verified model, in list order, each with group
`default`, that model, the channel ID, enabled, and the supplied priority and
weight; the table holds the other channels' rows followed by these, so no row
the channel had before remains. -/
theorem updateChannelModels_reconciles (s : Store) (f : ReconcileFaults) (channel : Channel)
    (models : List String) (cfg : ChannelConfig)
    (h : (updateChannelModels s f channel models cfg).2 = none) :
    (updateChannelModels s f channel models cfg).1.abilitiesOf channel.ID
      = models.map (fun m =>
          { Group := "default", Model := m, ChannelID := channel.ID, Enabled := true,
            Priority := cfg.Priority, Weight := cfg.Weight }) ∧
    (updateChannelModels s f channel models cfg).1.abilities
      = s.abilities.filter (fun a => a.ChannelID ≠ channel.ID) ++
        models.map (fun m =>
          { Group := "default", Model := m, ChannelID := channel.ID, Enabled := true,
            Priority := cfg.Priority, Weight := cfg.Weight }) := by
  refine ⟨updateChannelModels_success_rows s f channel models cfg h, ?_⟩
  rw [updateChannelModels_success_store s f channel models cfg h]

theorem updateChannelModels_noFaults (s : Store) (channel : Channel)
    (models : List String) (cfg : ChannelConfig) :
    (updateChannelModels s noFaults channel models cfg).2 = none := by
  obtain ⟨k, hk, _, _, _, hfail, hall⟩ :=
    updateChannelModels_inserted s noFaults channel models cfg rfl rfl
  by_cases hkl : k = models.length
  · exact hall hkl
  · exact absurd rfl (hfail (by omega)).1

theorem resolveConfig_of_rows (s : Store) (q : AbilityQuery) (channelID : Int)
    (hq : q.err = none) (hne : s.abilitiesOf channelID ≠ []) :
    ∃ a ∈ s.abilitiesOf channelID, resolveConfig s q channelID = ⟨a.Priority, a.Weight⟩ := by
  have hlt : q.pick % (s.abilitiesOf channelID).length < (s.abilitiesOf channelID).length :=
    Nat.mod_lt _ (List.length_pos.mpr hne)
  refine ⟨(s.abilitiesOf channelID)[q.pick % (s.abilitiesOf channelID).length], List.getElem_mem hlt, ?_⟩
  unfold resolveConfig getChannelDefaultConfig selectOneAbility
  simp [hq, List.getElem?_eq_getElem hlt]

/-- C9: running the per-channel step (resolve the `ChannelConfig`, then
`updateChannelModels`) twice in a row with the same verified list, the store
operations of both runs succeeding, leaves the store after the second run equal
to the store after the first run, whichever row the store picks for the
`LIMIT 1` query. -/
theorem reconcileChannel_idempotent (s : Store) (q₁ q₂ : AbilityQuery)
    (f₁ f₂ : ReconcileFaults) (channel : Channel) (models : List String)
    (hq₂ : q₂.err = none)
    (h₁ : (reconcileChannel s q₁ f₁ channel models).2 = none)
    (h₂ : (reconcileChannel (reconcileChannel s q₁ f₁ channel models).1 q₂ f₂ channel
      models).2 = none) :
    (reconcileChannel (reconcileChannel s q₁ f₁ channel models).1 q₂ f₂ channel models).1
      = (reconcileChannel s q₁ f₁ channel models).1 := by
  unfold reconcileChannel at h₁ h₂ ⊢
  have e₁ := updateChannelModels_success_store _ _ _ _ _ h₁
  have e₂ := updateChannelModels_success_store _ _ _ _ _ h₂
  have hrows := updateChannelModels_success_rows _ _ _ _ _ h₁
  generalize (updateChannelModels s f₁ channel models (resolveConfig s q₁ channel.ID)).1 = s₁
    at e₁ e₂ hrows h₂ ⊢
  rw [e₂]
  -- the config resolved by the second run
  have hcfg : models ≠ [] → resolveConfig s₁ q₂ channel.ID = resolveConfig s q₁ channel.ID := by
    intro hm
    have hne : s₁.abilitiesOf channel.ID ≠ [] := by
      rw [hrows]; simpa using hm
    obtain ⟨a, ha, hr⟩ := resolveConfig_of_rows s₁ q₂ channel.ID hq₂ hne
    rw [hrows, List.mem_map] at ha
    obtain ⟨m, _, rfl⟩ := ha
    rw [hr]
  have hnew : models.map (fun m =>
        ({ Group := "default", Model := m, ChannelID := channel.ID, Enabled := true,
           Priority := (resolveConfig s₁ q₂ channel.ID).Priority,
           Weight := (resolveConfig s₁ q₂ channel.ID).Weight } : Ability))
      = models.map (fun m =>
        { Group := "default", Model := m, ChannelID := channel.ID, Enabled := true,
          Priority := (resolveConfig s q₁ channel.ID).Priority,
          Weight := (resolveConfig s q₁ channel.ID).Weight }) := by
    cases models with
    | nil => rfl
    | cons m ms => rw [hcfg (by simp)]
  rw [hnew]
  rw [e₁]
  simp only [Store.mk.injEq]
  constructor
  · rw [List.map_map]
    apply List.map_congr_left
    intro c _
    by_cases hc : c.ID = channel.ID <;> simp [hc]
  · rw [List.filter_append, List.filter_filter]
    congr 1
    have hB : List.filter (fun a : Ability => decide (a.ChannelID ≠ channel.ID))
        (models.map (fun m =>
          { Group := "default", Model := m, ChannelID := channel.ID, Enabled := true,
            Priority := (resolveConfig s q₁ channel.ID).Priority,
            Weight := (resolveConfig s q₁ channel.ID).Weight })) = [] := by
      rw [List.filter_eq_nil_iff]
      intro a ha
      simp only [List.mem_map] at ha
      obtain ⟨m, _, rfl⟩ := ha
      simp
    rw [hB, List.append_nil]
    apply List.filter_congr
    intro a _
    simp


theorem reconcileChannel_rows_of_carrying (s : Store) (channel : Channel) (pick : Nat)
    (models : List String) (p : Int) (w : Nat)
    (hne : s.abilitiesOf channel.ID ≠ [])
    (hpw : ∀ a ∈ s.abilitiesOf channel.ID, a.Priority = p ∧ a.Weight = w) :
    (reconcileChannel s ⟨none, pick⟩ noFaults channel models).1.abilitiesOf channel.ID
      = models.map (fun m =>
          { Group := "default", Model := m, ChannelID := channel.ID, Enabled := true,
            Priority := p, Weight := w }) := by
  obtain ⟨a, ha, hr⟩ := resolveConfig_of_rows s ⟨none, pick⟩ channel.ID rfl hne
  obtain ⟨hp, hw⟩ := hpw a ha
  unfold reconcileChannel
  rw [updateChannelModels_success_rows s noFaults channel models _
    (updateChannelModels_noFaults s channel models _), hr, hp, hw]

theorem runPasses_carries (channel : Channel) (p : Int) (w : Nat) :
    ∀ (passes : List (Nat × List String)) (s : Store),
      s.abilitiesOf channel.ID ≠ [] →
      (∀ a ∈ s.abilitiesOf channel.ID, a.Priority = p ∧ a.Weight = w) →
      (∀ x ∈ passes.dropLast, x.2 ≠ []) →
      ∀ k, ∀ a ∈ (runPasses s channel (passes.take k)).abilitiesOf channel.ID,
        a.Priority = p ∧ a.Weight = w := by
  intro passes
  induction passes with
  | nil => intro s _ hpw _ k; simpa [runPasses] using hpw
  | cons x rest ih =>
    intro s hne hpw hx k
    cases k with
    | zero => simpa [runPasses] using hpw
    | succ k =>
      obtain ⟨pick, models⟩ := x
      have hrows := reconcileChannel_rows_of_carrying s channel pick models p w hne hpw
      simp only [List.take_succ_cons, runPasses]
      have hpw1 : ∀ a ∈ (reconcileChannel s ⟨none, pick⟩ noFaults channel
          models).1.abilitiesOf channel.ID, a.Priority = p ∧ a.Weight = w := by
        intro a ha
        rw [hrows, List.mem_map] at ha
        obtain ⟨m, _, rfl⟩ := ha
        exact ⟨rfl, rfl⟩
      cases rest with
      | nil => simpa [runPasses] using hpw1
      | cons y rest2 =>
        have hm : models ≠ [] := by
          have := hx (pick, models) (by simp [List.dropLast])
          simpa using this
        apply ih _ _ hpw1
        · intro z hz
          apply hx
          rw [List.dropLast_cons_of_ne_nil (by simp)]
          exact List.mem_cons_of_mem _ hz
        · rw [hrows]; simpa using hm

/-- C8 (amended): if the channel has at least one Ability row, all its rows carry
priority `p` and weight `w`, and every pass except possibly the last verifies
at least one model, then after each pass of the sequence every Ability row of
the channel carries priority `p` and weight `w`. -/
theorem runPasses_preserves_priority_weight (s : Store) (channel : Channel) (p : Int) (w : Nat)
    (passes : List (Nat × List String))
    (hne : s.abilitiesOf channel.ID ≠ [])
    (hpw : ∀ a ∈ s.abilitiesOf channel.ID, a.Priority = p ∧ a.Weight = w)
    (hpasses : ∀ x ∈ passes.dropLast, x.2 ≠ []) :
    ∀ k, k ≤ passes.length →
      ∀ a ∈ (runPasses s channel (passes.take k)).abilitiesOf channel.ID,
        a.Priority = p ∧ a.Weight = w :=
  fun k _ => runPasses_carries channel p w passes s hne hpw hpasses k


/-! ### Channel selection -/

theorem contains_iff_mem (l : List Int) (x : Int) : contains l x = true ↔ x ∈ l := by
  induction l with
  | nil => simp [contains]
  | cons v rest ih =>
    by_cases h : v = x
    · simp [contains, h]
    · have h2 : ¬ x = v := fun e => h e.symm
      simp [contains, h, h2, ih]

theorem containsString_iff_mem (l : List String) (x : String) :
    containsString l x = true ↔ x ∈ l := by
  induction l with
  | nil => simp [containsString]
  | cons v rest ih =>
    by_cases h : v = x
    · simp [containsString, h]
    · have h2 : ¬ x = v := fun e => h e.symm
      simp [containsString, h, h2, ih]

theorem fetchChannelsLoop_cons_ok (config : Config) (r : ChannelRow)
    (rest : List (Except String ChannelRow)) (channels : List Channel) :
    fetchChannelsLoop config (.ok r :: rest) channels =
      if contains config.ExcludeChannel (scanChannel r).ID then
        fetchChannelsLoop config rest channels
      else if (scanChannel r).Type_ = 40 ∨ (scanChannel r).Type_ = 999 then
        fetchChannelsLoop config rest
          (channels ++ [{ scanChannel r with BaseURL := "https://api.siliconflow.cn" }])
      else if (scanChannel r).Type_ = 1 ∧ (scanChannel r).BaseURL ≠ "" then
        fetchChannelsLoop config rest (channels ++ [scanChannel r])
      else
        fetchChannelsLoop config rest channels := by
  simp only [fetchChannelsLoop]

theorem fetchChannelsLoop_append (config : Config) (rows : List ChannelRow)
    (tail : List (Except String ChannelRow)) :
    ∀ channels : List Channel,
      fetchChannelsLoop config (rows.map Except.ok ++ tail) channels =
        fetchChannelsLoop config tail (channels ++
          (rows.filter (fun r => decide (r.id ∉ config.ExcludeChannel ∧
              (r.type_ = 40 ∨ r.type_ = 999 ∨ (r.type_ = 1 ∧ r.base_url ≠ ""))))).map
            (fun r =>
              { ID := r.id, Type_ := r.type_, Name := r.name,
                BaseURL :=
                  if r.type_ = 40 ∨ r.type_ = 999 then "https://api.siliconflow.cn"
                  else r.base_url,
                Key := r.key, Status := r.status, Models := r.models, DeletedAt := none })) := by
  induction rows with
  | nil => intro channels; simp
  | cons r rest ih =>
    intro channels
    rw [List.map_cons, List.cons_append, fetchChannelsLoop_cons_ok]
    by_cases hex : r.id ∈ config.ExcludeChannel
    · have hc : contains config.ExcludeChannel (scanChannel r).ID = true :=
        (contains_iff_mem _ _).2 hex
      rw [if_pos hc, ih]
      simp [List.filter_cons, hex]
    · have hc : ¬ contains config.ExcludeChannel (scanChannel r).ID = true :=
        fun h => hex ((contains_iff_mem _ _).1 h)
      rw [if_neg hc]
      by_cases ht : r.type_ = 40 ∨ r.type_ = 999
      · have ht2 : (scanChannel r).Type_ = 40 ∨ (scanChannel r).Type_ = 999 := ht
        have hk : r.id ∉ config.ExcludeChannel ∧
            (r.type_ = 40 ∨ r.type_ = 999 ∨ (r.type_ = 1 ∧ r.base_url ≠ "")) :=
          ⟨hex, by rcases ht with h | h; exact Or.inl h; exact Or.inr (Or.inl h)⟩
        rw [if_pos ht2, ih, List.filter_cons, if_pos (by simpa using hk)]
        simp [ht, scanChannel]
      · have ht2 : ¬ ((scanChannel r).Type_ = 40 ∨ (scanChannel r).Type_ = 999) := ht
        rw [if_neg ht2]
        by_cases h1 : r.type_ = 1 ∧ r.base_url ≠ ""
        · have h12 : (scanChannel r).Type_ = 1 ∧ (scanChannel r).BaseURL ≠ "" := h1
          have hk : r.id ∉ config.ExcludeChannel ∧
              (r.type_ = 40 ∨ r.type_ = 999 ∨ (r.type_ = 1 ∧ r.base_url ≠ "")) :=
            ⟨hex, Or.inr (Or.inr h1)⟩
          rw [if_pos h12, ih, List.filter_cons, if_pos (by simpa using hk)]
          simp [ht, scanChannel]
        · have h12 : ¬ ((scanChannel r).Type_ = 1 ∧ (scanChannel r).BaseURL ≠ "") := h1
          have hk : ¬ (r.id ∉ config.ExcludeChannel ∧
              (r.type_ = 40 ∨ r.type_ = 999 ∨ (r.type_ = 1 ∧ r.base_url ≠ ""))) := by
            rintro ⟨_, h | h | h⟩
            · exact ht (Or.inl h)
            · exact ht (Or.inr h)
            · exact h1 h
          rw [if_neg h12, ih, List.filter_cons, if_neg (by simpa using hk)]

/-- C2 (amended): when every row of the query result scans, `fetchChannels` returns,
in store order, exactly the rows whose ID is not excluded and that are of type
40 or 999, or of type 1 with a non-empty `base_url`; each returned channel has
the row's ID, type, name, key, status and models, no deletion time, and as
`BaseURL` the fixed vendor endpoint for type 40/999 and the row's `base_url`
otherwise; no excluded ID and no type-1 channel with empty `BaseURL` is
returned.  When a row fails to scan, `fetchChannels` returns an error and no
channel, whatever the rows before and after it. -/
theorem fetchChannels_selects (config : Config) (rows : List ChannelRow) :
    (∃ channels : List Channel,
      fetchChannels config (.ok (rows.map Except.ok)) = .ok channels ∧
      channels =
        (rows.filter (fun r => decide (r.id ∉ config.ExcludeChannel ∧
            (r.type_ = 40 ∨ r.type_ = 999 ∨ (r.type_ = 1 ∧ r.base_url ≠ ""))))).map
          (fun r =>
            { ID := r.id, Type_ := r.type_, Name := r.name,
              BaseURL :=
                if r.type_ = 40 ∨ r.type_ = 999 then "https://api.siliconflow.cn"
                else r.base_url,
              Key := r.key, Status := r.status, Models := r.models, DeletedAt := none }) ∧
      (∀ c ∈ channels, c.ID ∉ config.ExcludeChannel ∧ ¬ (c.Type_ = 1 ∧ c.BaseURL = ""))) ∧
    (∀ (e : String) (rest : List (Except String ChannelRow)),
      fetchChannels config (.ok (rows.map Except.ok ++ .error e :: rest))
        = .error ("扫描渠道数据失败：" ++ e)) := by
  refine ⟨⟨_, ?_, rfl, ?_⟩, ?_⟩
  · have h := fetchChannelsLoop_append config rows [] []
    simp only [List.append_nil, List.nil_append, fetchChannelsLoop] at h
    simp only [fetchChannels]
    exact h
  · intro c hc
    simp only [List.mem_map, List.mem_filter, decide_eq_true_eq] at hc
    obtain ⟨r, ⟨_, hex, hty⟩, rfl⟩ := hc
    refine ⟨hex, ?_⟩
    by_cases ht : r.type_ = 40 ∨ r.type_ = 999
    · rintro ⟨h1, _⟩
      have h1r : r.type_ = 1 := h1
      rcases ht with h | h <;> omega
    · rintro ⟨_, h2⟩
      simp only [if_neg ht] at h2
      rcases hty with h | h | h
      · exact ht (Or.inl h)
      · exact ht (Or.inr h)
      · exact h.2 h2
  · intro e rest
    simp only [fetchChannels]
    rw [fetchChannelsLoop_append]
    simp only [fetchChannelsLoop]

/-- C2 (counterexample): the store returns two rows; the first is a type-1 channel with
a base URL, the second fails to scan (its `base_url` is NULL).  `fetchChannels`
returns an error and no list of channels, so the first row is not returned. -/
theorem fetchChannels_scan_error_returns_no_channel :
    fetchChannels liveConfig
        (.ok [.ok ⟨4, 1, "d", "https://d.com", "kd", 1, "m"⟩,
              .error "converting NULL to string is unsupported"])
      = .error "扫描渠道数据失败：converting NULL to string is unsupported" ∧
    ∀ channels : List Channel,
      fetchChannels liveConfig
          (.ok [.ok ⟨4, 1, "d", "https://d.com", "kd", 1, "m"⟩,
                .error "converting NULL to string is unsupported"])
        ≠ .ok channels := by
  have h : fetchChannels liveConfig
      (.ok [.ok ⟨4, 1, "d", "https://d.com", "kd", 1, "m"⟩,
            .error "converting NULL to string is unsupported"])
      = .error "扫描渠道数据失败：converting NULL to string is unsupported" := rfl
  refine ⟨h, ?_⟩
  intro channels hc
  rw [h] at hc
  cases hc


/-! ### Model probing -/

theorem filterListedModels_eq (config : Config) (ids : List String) :
    ∀ modelList : List String,
      filterListedModels config ids modelList
        = modelList ++ ids.filter (fun id => decide (id ∉ config.ExcludeModel)) := by
  induction ids with
  | nil => intro modelList; simp [filterListedModels]
  | cons id rest ih =>
    intro modelList
    by_cases h : id ∈ config.ExcludeModel
    · have hc : containsString config.ExcludeModel id = true :=
        (containsString_iff_mem _ _).2 h
      simp [filterListedModels, hc, ih, h]
    · have hc : ¬ containsString config.ExcludeModel id = true :=
        fun hh => h ((containsString_iff_mem _ _).1 hh)
      simp [filterListedModels, hc, ih, h]

theorem candidateModels_request_error (config : Config) (channel : Channel) (e : String)
    (listing : ListingOutcome) (h : config.ForceModels = false) :
    candidateModels config channel (some e) listing = (.error ("创建请求失败：" ++ e), []) := by
  simp [candidateModels, h]

/-- C3 (amended): with `ForceModels` set the candidate list is `config.Models` and no
request is sent, whatever the other inputs; otherwise, when the listing request
cannot be created, `testChannelModels` builds no candidate list, sends nothing
and returns an error; otherwise the candidate list is the listed IDs without
the excluded ones when the call returns status 200 and the body parses, and in
every other case the stored `Models` field split on `","`, or `config.Models`
when that field is empty. -/
theorem candidateModels_resolution (config : Config) (channel : Channel)
    (listing : ListingOutcome) (health : Nat → HealthOutcome) :
    (config.ForceModels = true → ∀ newRequestErr : Option String,
      candidateModels config channel newRequestErr listing = (.ok config.Models, [])) ∧
    (config.ForceModels = false → ∀ e : String,
      testChannelModels config channel (some e) listing health
        = (.error ("创建请求失败：" ++ e), [])) ∧
    (config.ForceModels = false →
      candidateModels config channel none listing =
        (.ok (match listing with
              | .response 200 (.ok ids) =>
                ids.filter (fun id => decide (id ∉ config.ExcludeModel))
              | _ =>
                if channel.Models = "" then config.Models
                else strings.Split channel.Models ','),
          [HttpCall.get (channel.BaseURL ++ "/v1/models") ("Bearer " ++ channel.Key)])) := by
  refine ⟨?_, ?_, ?_⟩
  · intro h newRequestErr
    simp [candidateModels, h]
  · intro h e
    simp [testChannelModels, candidateModels_request_error config channel e listing h]
  · intro h
    cases listing with
    | transportError msg =>
      by_cases hm : channel.Models = "" <;>
        simp [candidateModels, h, storedOrDefaultModels, hm]
    | response statusCode parsed =>
      by_cases hs : statusCode = 200
      · subst hs
        cases parsed with
        | error e =>
          by_cases hm : channel.Models = "" <;>
            simp [candidateModels, h, storedOrDefaultModels, hm]
        | ok ids =>
          simp [candidateModels, h, filterListedModels_eq]
      · have hmatch : (match ListingOutcome.response statusCode parsed with
              | .response 200 (.ok ids) =>
                ids.filter (fun id => decide (id ∉ config.ExcludeModel))
              | _ =>
                if channel.Models = "" then config.Models
                else strings.Split channel.Models ',')
            = (if channel.Models = "" then config.Models
                else strings.Split channel.Models ',') := by
          split
          · rename_i heq
            injection heq with h1 h2
            exact absurd h1 hs
          · rfl
        rw [hmatch]
        by_cases hm : channel.Models = "" <;>
          simp [candidateModels, h, storedOrDefaultModels, hm, hs]

theorem healthCheckLoop_verified (channel : Channel) (health : Nat → HealthOutcome)
    (modelList : List String) :
    ∀ (i : Nat) (availableModels : List String) (calls : List HttpCall),
      (healthCheckLoop channel health modelList i availableModels calls).1 =
        availableModels ++
          ((modelList.enumFrom i).filter (fun p =>
            match health p.1 with
            | .response 200 _ => true
            | _ => false)).map Prod.snd := by
  induction modelList with
  | nil => intro i availableModels calls; simp [healthCheckLoop]
  | cons model rest ih =>
    intro i availableModels calls
    simp only [healthCheckLoop, List.enumFrom_cons, List.filter_cons]
    cases hh : health i with
    | requestError msg => simp [ih]
    | transportError msg => simp [ih]
    | response statusCode body =>
      by_cases hs : statusCode = 200
      · subst hs
        simp [ih]
      · simp only [hs, if_false]
        rw [ih]
        split
        · rename_i heq
          split at heq
          · rename_i h2
            injection h2 with h3 _
            exact absurd h3 hs
          · exact absurd heq (by simp)
        · rfl

/-- C4: the verified list returned by `testChannelModels` is the sub-list, in
order, of the candidates whose own health check returned status 200; an empty
candidate list gives an empty verified list and no error. -/
theorem testChannelModels_verified (config : Config) (channel : Channel)
    (newRequestErr : Option String) (listing : ListingOutcome)
    (health : Nat → HealthOutcome) :
    (testChannelModels config channel newRequestErr listing health).1 =
      (candidateModels config channel newRequestErr listing).1.map (fun modelList =>
        (modelList.enum.filter (fun p =>
          match health p.1 with
          | .response 200 _ => true
          | _ => false)).map Prod.snd) ∧
    ((candidateModels config channel newRequestErr listing).1 = .ok [] →
      (testChannelModels config channel newRequestErr listing health).1 = .ok []) := by
  have key : (testChannelModels config channel newRequestErr listing health).1 =
      (candidateModels config channel newRequestErr listing).1.map (fun modelList =>
        (modelList.enum.filter (fun p =>
          match health p.1 with
          | .response 200 _ => true
          | _ => false)).map Prod.snd) := by
    unfold testChannelModels
    cases hc : candidateModels config channel newRequestErr listing with
    | mk r calls =>
      cases r with
      | error e => rfl
      | ok modelList =>
        simp only [healthCheckLoop_verified, List.nil_append, Except.map, List.enum]
  refine ⟨key, ?_⟩
  intro h
  rw [key, h]
  rfl


/-! ### The driver loop -/

/-- C10 (failing input): the channel query fails in the first iteration and succeeds
in the second.  The driver calls `fetchChannels` a second time without a tick
having been consumed in between; the only tick follows the second pass. -/
theorem mainLoop_refetches_without_tick :
    (mainLoop liveConfig outageWorld 2 0 store5 []).2
      = [Event.fetch, Event.fetch, Event.channel 5, Event.tick] := by
  decide

/-! ### Concrete instances -/

/-- C1 (witness): channel 5 reconciled with `["gpt-a"]` and config `{3, 7}`. -/
theorem updateChannelModels_reconciles_witness :
    (updateChannelModels store5 noFaults channel5 ["gpt-a"] ⟨3, 7⟩).2 = none ∧
    (updateChannelModels store5 noFaults channel5 ["gpt-a"] ⟨3, 7⟩).1.abilitiesOf channel5.ID
      = [{ Group := "default", Model := "gpt-a", ChannelID := 5, Enabled := true,
           Priority := 3, Weight := 7 }] :=
  ⟨by decide,
   (updateChannelModels_reconciles store5 noFaults channel5 ["gpt-a"] ⟨3, 7⟩ (by decide)).1⟩

/-- C2 (witness): an excluded channel, a type-40 channel with a stored URL, a type-1
channel without URL and a type-1 channel with URL; and the same rows followed
by a row that fails to scan. -/
theorem fetchChannels_selects_witness :
    fetchChannels { liveConfig with ExcludeChannel := [1] }
        (.ok ([⟨1, 1, "a", "https://a.com", "ka", 1, ""⟩,
               ⟨2, 40, "b", "https://b.com", "kb", 2, "m1,m2"⟩,
               ⟨3, 1, "c", "", "kc", 1, ""⟩,
               ⟨4, 1, "d", "https://d.com", "kd", 3, "m"⟩].map Except.ok))
      = .ok [{ ID := 2, Type_ := 40, Name := "b", BaseURL := "https://api.siliconflow.cn",
               Key := "kb", Status := 2, Models := "m1,m2", DeletedAt := none },
             { ID := 4, Type_ := 1, Name := "d", BaseURL := "https://d.com",
               Key := "kd", Status := 3, Models := "m", DeletedAt := none }] ∧
    fetchChannels { liveConfig with ExcludeChannel := [1] }
        (.ok ([⟨1, 1, "a", "https://a.com", "ka", 1, ""⟩,
               ⟨2, 40, "b", "https://b.com", "kb", 2, "m1,m2"⟩,
               ⟨3, 1, "c", "", "kc", 1, ""⟩,
               ⟨4, 1, "d", "https://d.com", "kd", 3, "m"⟩].map Except.ok
              ++ .error "converting NULL to string is unsupported" :: []))
      = .error "扫描渠道数据失败：converting NULL to string is unsupported" := by
  obtain ⟨⟨channels, h, heq, _⟩, herr⟩ :=
    fetchChannels_selects { liveConfig with ExcludeChannel := [1] }
      [⟨1, 1, "a", "https://a.com", "ka", 1, ""⟩,
       ⟨2, 40, "b", "https://b.com", "kb", 2, "m1,m2"⟩,
       ⟨3, 1, "c", "", "kc", 1, ""⟩,
       ⟨4, 1, "d", "https://d.com", "kd", 3, "m"⟩]
  refine ⟨?_, herr "converting NULL to string is unsupported" []⟩
  rw [h, heq]
  rfl

/-- C3 (counterexample): discovery is not forced and the listing request for
`malformedChannel` cannot be created.  No candidate list is built, in particular
not the stored models `gpt-a`, `gpt-b`; the probe returns an error and sends
nothing. -/
theorem candidateModels_no_list_on_request_error :
    candidateModels liveConfig malformedChannel (some "invalid character in host name")
        (.transportError "unreachable")
      = (.error "创建请求失败：invalid character in host name", []) ∧
    (candidateModels liveConfig malformedChannel (some "invalid character in host name")
        (.transportError "unreachable")).1
      ≠ .ok (strings.Split malformedChannel.Models ',') ∧
    testChannelModels liveConfig malformedChannel (some "invalid character in host name")
        (.transportError "unreachable") (fun _ => .response 200 "")
      = (.error "创建请求失败：invalid character in host name", []) := by
  refine ⟨rfl, ?_, rfl⟩
  intro h
  have h2 : (candidateModels liveConfig malformedChannel
      (some "invalid character in host name") (.transportError "unreachable")).1
      = .error "创建请求失败：invalid character in host name" := rfl
  rw [h2] at h
  cases h

/-- C3 (witness): the force-models policy with an empty fixed list, a request that
cannot be created, and channel 5 with a failed discovery call. -/
theorem candidateModels_resolution_witness :
    candidateModels forcedEmptyConfig channel5 none (.transportError "timeout")
      = (.ok [], []) ∧
    testChannelModels liveConfig malformedChannel (some "invalid character in host name")
        (.transportError "timeout") (fun _ => .response 200 "")
      = (.error "创建请求失败：invalid character in host name", []) ∧
    candidateModels liveConfig channel5 none (.transportError "timeout")
      = (.ok ["gpt-a", "gpt-b"], [HttpCall.get "https://x.com/v1/models" "Bearer sk-5"]) := by
  refine ⟨(candidateModels_resolution forcedEmptyConfig channel5 (.transportError "timeout")
      (fun _ => .response 200 "")).1 rfl none,
    (candidateModels_resolution liveConfig malformedChannel (.transportError "timeout")
      (fun _ => .response 200 "")).2.1 rfl "invalid character in host name", ?_⟩
  rw [(candidateModels_resolution liveConfig channel5 (.transportError "timeout")
    (fun _ => .response 200 "")).2.2 rfl]
  rfl

/-- C4 (witness): the force-models policy with an empty fixed list gives an empty
verified list. -/
theorem testChannelModels_verified_witness :
    (testChannelModels forcedEmptyConfig channel5 none (.transportError "timeout")
      (fun _ => .response 200 "")).1 = .ok [] :=
  (testChannelModels_verified forcedEmptyConfig channel5 none (.transportError "timeout")
    (fun _ => .response 200 "")).2 rfl

/-- C7 (counterexample): channel 5 has one old row; the second of two `INSERT`s fails.
The call returns an error and the channel is left with the first new row only:
neither the old rows nor the full new set. -/
theorem updateChannelModels_not_atomic :
    (updateChannelModels store5 secondInsertFails channel5 ["gpt-a", "gpt-b"] ⟨3, 7⟩).2 ≠ none ∧
    (updateChannelModels store5 secondInsertFails channel5 ["gpt-a", "gpt-b"]
        ⟨3, 7⟩).1.abilitiesOf 5
      = [{ Group := "default", Model := "gpt-a", ChannelID := 5, Enabled := true,
           Priority := 3, Weight := 7 }] ∧
    (updateChannelModels store5 secondInsertFails channel5 ["gpt-a", "gpt-b"]
        ⟨3, 7⟩).1.abilitiesOf 5 ≠ store5.abilitiesOf 5 ∧
    (updateChannelModels store5 secondInsertFails channel5 ["gpt-a", "gpt-b"]
        ⟨3, 7⟩).1.abilitiesOf 5
      ≠ ["gpt-a", "gpt-b"].map (fun m =>
          { Group := "default", Model := m, ChannelID := 5, Enabled := true,
            Priority := 3, Weight := 7 }) := by
  decide

/-- C7 (witness): a failing `UPDATE` keeps the old rows of channel 5; with both
statements succeeding the rows are a prefix of the new set. -/
theorem updateChannelModels_rows_after_witness :
    ((updateChannelModels store5 updateFails channel5 ["gpt-a", "gpt-b"]
        ⟨3, 7⟩).1.abilitiesOf channel5.ID = store5.abilitiesOf channel5.ID ∧
      (updateChannelModels store5 updateFails channel5 ["gpt-a", "gpt-b"] ⟨3, 7⟩).2 ≠ none) ∧
    ∃ k, k ≤ ["gpt-a", "gpt-b"].length ∧
      (updateChannelModels store5 secondInsertFails channel5 ["gpt-a", "gpt-b"]
          ⟨3, 7⟩).1.abilitiesOf channel5.ID
        = (["gpt-a", "gpt-b"].take k).map (fun m =>
            { Group := "default", Model := m, ChannelID := channel5.ID, Enabled := true,
              Priority := 3, Weight := 7 }) :=
  ⟨(updateChannelModels_rows_after store5 updateFails channel5 ["gpt-a", "gpt-b"] ⟨3, 7⟩).1
      (Or.inl (by decide)),
   let ⟨k, hk, hrows, _⟩ :=
     (updateChannelModels_rows_after store5 secondInsertFails channel5 ["gpt-a", "gpt-b"]
       ⟨3, 7⟩).2 rfl rfl
   ⟨k, hk, hrows⟩⟩

/-- C8 (counterexample): channel 5 has one row with priority 3 and weight 7; a pass
that verifies no model is followed by a pass that verifies `gpt-a`.  The row
present after the second pass carries priority 0 and weight 1. -/
theorem runPasses_loses_priority_weight :
    (∀ a ∈ store5.abilitiesOf 5, a.Priority = 3 ∧ a.Weight = 7) ∧
    (runPasses store5 channel5 [(0, []), (0, ["gpt-a"])]).abilitiesOf 5
      = [{ Group := "default", Model := "gpt-a", ChannelID := 5, Enabled := true,
           Priority := 0, Weight := 1 }] ∧
    ¬ (∀ a ∈ (runPasses store5 channel5 [(0, []), (0, ["gpt-a"])]).abilitiesOf 5,
        a.Priority = 3 ∧ a.Weight = 7) := by
  decide

/-- C8 (witness): channel 5 with its row `{3, 7}` and two passes, the first verifying
two models. -/
theorem runPasses_preserves_priority_weight_witness :
    (store5.abilitiesOf channel5.ID ≠ []) ∧
    (∀ a ∈ store5.abilitiesOf channel5.ID, a.Priority = 3 ∧ a.Weight = 7) ∧
    (∀ x ∈ [(0, ["gpt-a", "gpt-b"]), (1, ["gpt-a"])].dropLast, x.2 ≠ []) ∧
    ∀ a ∈ (runPasses store5 channel5
        ([(0, ["gpt-a", "gpt-b"]), (1, ["gpt-a"])].take 2)).abilitiesOf channel5.ID,
      a.Priority = 3 ∧ a.Weight = 7 :=
  ⟨by decide, by decide, by decide,
   runPasses_preserves_priority_weight store5 channel5 3 7
     [(0, ["gpt-a", "gpt-b"]), (1, ["gpt-a"])] (by decide) (by decide) (by decide) 2
     (by decide)⟩

/-- C9 (witness): channel 5 reconciled twice with `["gpt-a", "gpt-b"]`, the store
picking different rows for the two config queries. -/
theorem reconcileChannel_idempotent_witness :
    (reconcileChannel (reconcileChannel store5 ⟨none, 0⟩ noFaults channel5
        ["gpt-a", "gpt-b"]).1 ⟨none, 1⟩ noFaults channel5 ["gpt-a", "gpt-b"]).1
      = (reconcileChannel store5 ⟨none, 0⟩ noFaults channel5 ["gpt-a", "gpt-b"]).1 :=
  reconcileChannel_idempotent store5 ⟨none, 0⟩ ⟨none, 1⟩ noFaults noFaults channel5
    ["gpt-a", "gpt-b"] rfl (by decide) (by decide)

end ChannelMonitor
